import Mathlib

/-!
Verification of the translation-resolution subsystem described by the
repository's design specification, together with the `cleanup_files`
helper of `examples/i18n/advanced_usage_example.py`.

The repository ships only example scripts; the i18n engine they exercise
(`ydata_profiling.i18n`: `export_translation_template`,
`load_translation_file`, `add_translation_directory`, `set_locale`,
`get_locale`, and the key-lookup function) is not part of the supplied
sources, so those operations are modelled from the specification text.
The `cleanup_files` function is embedded directly from the example script.
-/

set_option autoImplicit false

/-- Lowercases an ASCII letter, leaving other characters unchanged. -/
def lowerChar (c : Char) : Char :=
  if 'A' ≤ c ∧ c ≤ 'Z' then Char.ofNat (c.toNat + 32) else c

/-- Modelled from the spec: locale codes are case-insensitive and unique
after normalization; normalization is case folding of the code. -/
def normalizeLocale (s : String) : String :=
  String.mk (s.data.map lowerChar)

/-- Splits a character list on the dot character. -/
def splitDot : List Char → List (List Char)
  | [] => [[]]
  | c :: cs =>
    if c = '.' then [] :: splitDot cs
    else
      match splitDot cs with
      | [] => [[c]]
      | w :: ws => (c :: w) :: ws

/-- Modelled from the spec: resolve step 1 splits the dotted key on the
dot character into path segments. -/
def splitKey (s : String) : List String :=
  (splitDot s.data).map String.mk

/-- First value bound to a key in an association list. -/
def assoc {α : Type} (k : String) : List (String × α) → Option α
  | [] => none
  | (k2, v) :: rest => if k2 = k then some v else assoc k rest

/-- Removes every binding of a key from an association list. -/
def eraseKey {α : Type} (k : String) : List (String × α) → List (String × α)
  | [] => []
  | (k2, v) :: rest => if k2 = k then eraseKey k rest else (k2, v) :: eraseKey k rest

/-- Replaces the first binding of a key, appending it when absent. -/
def updateAssoc {α : Type} : List (String × α) → String → α → List (String × α)
  | [], l, d => [(l, d)]
  | (k, v) :: rest, l, d =>
    if k = l then (l, d) :: rest else (k, v) :: updateAssoc rest l d

/-- Modelled from the spec: a Catalog is a tree keyed by dotted path
segments mapping ultimately to a localized string template. -/
inductive Catalog where
  | leaf : String → Catalog
  | node : List (String × Catalog) → Catalog

/-- The empty Catalog: a mapping with no keys. -/
def emptyCatalog : Catalog := .node []

/-- Modelled from the spec: resolve steps 2 and 3, restricted to one
Catalog: walk the segment path through nested mappings and return the
string found at the end, if any. -/
def lookupPath : List String → Catalog → Option String
  | [], .leaf s => some s
  | [], .node _ => none
  | _ :: _, .leaf _ => none
  | k :: ks, .node m =>
    match assoc k m with
    | some d => lookupPath ks d
    | none => none

/-- A path is untouched by a catalog when the walk falls off a mapping
node at a missing key: the catalog neither defines the path, nor a value
at a prefix of it, nor a subtree below it. Merging leaves untouched
paths of the newly loaded catalog entirely to the old catalog. -/
def untouched : List String → Catalog → Bool
  | _, .leaf _ => false
  | [], .node _ => false
  | k :: ks, .node m =>
    match assoc k m with
    | some d => untouched ks d
    | none => true

mutual

/-- Modelled from the spec: the merge policy of load operations —
last-loaded wins per leaf key; nested objects merge recursively rather
than being replaced wholesale. -/
def merge : Catalog → Catalog → Catalog
  | _, .leaf s => .leaf s
  | .leaf _, .node n => .node n
  | .node m, .node n => .node (mergeEntries m n)

/-- Merges the entries of a newly loaded mapping into those of an
existing mapping: keys of both merge recursively, keys only in the new
mapping are added, keys only in the old mapping are kept. -/
def mergeEntries (m : List (String × Catalog)) : List (String × Catalog) → List (String × Catalog)
  | [] => m
  | (k, d2) :: n =>
    match assoc k m with
    | some d => (k, merge d d2) :: mergeEntries (eraseKey k m) n
    | none => (k, d2) :: mergeEntries m n

end

mutual

/-- A catalog is well formed when every mapping node is non-empty, so
that every subtree contributes at least one dotted key. -/
def wellFormed : Catalog → Bool
  | .leaf _ => true
  | .node [] => false
  | .node (kv :: rest) => wellFormed kv.2 && wellFormedEntries rest

/-- Every entry of the list holds a well-formed catalog. -/
def wellFormedEntries : List (String × Catalog) → Bool
  | [] => true
  | kv :: rest => wellFormed kv.2 && wellFormedEntries rest

end

/- ## Basic association-list lemmas -/

theorem assoc_mem {α : Type} {k : String} {v : α} :
    ∀ {l : List (String × α)}, assoc k l = some v → (k, v) ∈ l := by
  intro l
  induction l with
  | nil => intro h; simp [assoc] at h
  | cons kv rest ih =>
    obtain ⟨k2, v2⟩ := kv
    intro h
    by_cases hk : k2 = k
    · rw [assoc, if_pos hk] at h
      subst hk
      cases Option.some.inj h
      exact List.mem_cons_self _ _
    · rw [assoc, if_neg hk] at h
      exact List.mem_cons_of_mem _ (ih h)

theorem assoc_eraseKey {α : Type} (q k : String) (m : List (String × α)) :
    assoc q (eraseKey k m) = if q = k then none else assoc q m := by
  induction m with
  | nil => simp [eraseKey, assoc]
  | cons kv rest ih =>
    obtain ⟨k2, v⟩ := kv
    by_cases h2 : k2 = k
    · rw [eraseKey, if_pos h2, ih]
      by_cases hq : q = k
      · rw [if_pos hq, if_pos hq]
      · rw [if_neg hq, if_neg hq, assoc,
          if_neg (fun h : k2 = q => hq (h.symm.trans h2))]
    · rw [eraseKey, if_neg h2]
      by_cases hq : k2 = q
      · have hqk : ¬ q = k := fun h => h2 (hq.trans h)
        rw [assoc, if_pos hq, if_neg hqk, assoc, if_pos hq]
      · rw [assoc, if_neg hq, ih]
        by_cases hqk : q = k
        · rw [if_pos hqk, if_pos hqk]
        · rw [if_neg hqk, if_neg hqk, assoc, if_neg hq]

theorem assoc_updateAssoc {α : Type} (q l : String) (d : α)
    (reg : List (String × α)) :
    assoc q (updateAssoc reg l d) = if q = l then some d else assoc q reg := by
  induction reg with
  | nil =>
    simp only [updateAssoc, assoc]
    by_cases h : q = l
    · rw [if_pos h.symm, if_pos h]
    · rw [if_neg (fun h2 : l = q => h h2.symm), if_neg h]
  | cons kv rest ih =>
    obtain ⟨k2, v⟩ := kv
    by_cases hk : k2 = l
    · rw [updateAssoc, if_pos hk]
      by_cases hq : q = l
      · rw [if_pos hq, assoc, if_pos hq.symm]
      · rw [if_neg hq, assoc, if_neg (fun h : l = q => hq h.symm), assoc,
          if_neg (fun h : k2 = q => hq (h.symm.trans hk))]
    · rw [updateAssoc, if_neg hk, assoc]
      by_cases hq : k2 = q
      · have hql : ¬ q = l := fun h => hk (hq.trans h)
        rw [if_pos hq, if_neg hql, assoc, if_pos hq]
      · rw [if_neg hq, ih]
        by_cases hql : q = l
        · rw [if_pos hql, if_pos hql]
        · rw [if_neg hql, if_neg hql, assoc, if_neg hq]

/- ## Merge lemmas -/

theorem mergeEntries_nil (n : List (String × Catalog)) : mergeEntries [] n = n := by
  induction n with
  | nil => rfl
  | cons kv n ih =>
    obtain ⟨k, d2⟩ := kv
    rw [mergeEntries]
    show (match assoc k [] with
      | some d => (k, merge d d2) :: mergeEntries (eraseKey k []) n
      | none => (k, d2) :: mergeEntries [] n) = (k, d2) :: n
    rw [show assoc k ([] : List (String × Catalog)) = none from rfl]
    rw [ih]

theorem merge_empty (c : Catalog) : merge emptyCatalog c = c := by
  cases c with
  | leaf s => rfl
  | node n => rw [emptyCatalog, merge, mergeEntries_nil]

theorem assoc_mergeEntries (q : String) (n : List (String × Catalog)) :
    ∀ (m : List (String × Catalog)),
      assoc q (mergeEntries m n) =
        match assoc q n with
        | some d2 =>
          some (match assoc q m with
            | some d => merge d d2
            | none => d2)
        | none => assoc q m := by
  induction n with
  | nil => intro m; rw [mergeEntries, assoc]
  | cons kv n ih =>
    obtain ⟨k, d2⟩ := kv
    intro m
    rw [mergeEntries]
    cases hm : assoc k m with
    | some d =>
      by_cases hq : k = q
      · subst hq
        rw [assoc, if_pos rfl, assoc, if_pos rfl, hm]
      · rw [assoc, if_neg hq, ih, assoc_eraseKey,
          if_neg (fun h : q = k => hq h.symm), assoc, if_neg hq]
    | none =>
      by_cases hq : k = q
      · subst hq
        rw [assoc, if_pos rfl, assoc, if_pos rfl, hm]
      · rw [assoc, if_neg hq, ih, assoc, if_neg hq]

theorem lookupPath_cons_some {k : String} {m : List (String × Catalog)} {d : Catalog}
    (ks : List String) (h : assoc k m = some d) :
    lookupPath (k :: ks) (Catalog.node m) = lookupPath ks d := by
  rw [lookupPath, h]

theorem lookupPath_cons_none {k : String} {m : List (String × Catalog)}
    (ks : List String) (h : assoc k m = none) :
    lookupPath (k :: ks) (Catalog.node m) = none := by
  rw [lookupPath, h]

theorem untouched_cons_some {k : String} {m : List (String × Catalog)} {d : Catalog}
    (ks : List String) (h : assoc k m = some d) :
    untouched (k :: ks) (Catalog.node m) = untouched ks d := by
  rw [untouched, h]

theorem untouched_cons_none {k : String} {m : List (String × Catalog)}
    (ks : List String) (h : assoc k m = none) :
    untouched (k :: ks) (Catalog.node m) = true := by
  rw [untouched, h]

theorem assoc_mergeEntries_some_some {q : String} {n m : List (String × Catalog)}
    {d2 d : Catalog} (hn : assoc q n = some d2) (hm : assoc q m = some d) :
    assoc q (mergeEntries m n) = some (merge d d2) := by
  rw [assoc_mergeEntries, hn, hm]

theorem assoc_mergeEntries_some_none {q : String} {n m : List (String × Catalog)}
    {d2 : Catalog} (hn : assoc q n = some d2) (hm : assoc q m = none) :
    assoc q (mergeEntries m n) = some d2 := by
  rw [assoc_mergeEntries, hn, hm]

theorem assoc_mergeEntries_none {q : String} {n m : List (String × Catalog)}
    (hn : assoc q n = none) :
    assoc q (mergeEntries m n) = assoc q m := by
  rw [assoc_mergeEntries, hn]

theorem untouched_lookupPath (p : List String) :
    ∀ (d : Catalog), untouched p d = true → lookupPath p d = none := by
  induction p with
  | nil =>
    intro d h
    cases d with
    | leaf s => simp [untouched] at h
    | node m => rfl
  | cons k ks ih =>
    intro d h
    cases d with
    | leaf s => simp [untouched] at h
    | node m =>
      cases ha : assoc k m with
      | some d2 =>
        rw [untouched_cons_some ks ha] at h
        rw [lookupPath_cons_some ks ha]
        exact ih d2 h
      | none => rw [lookupPath_cons_none ks ha]

/-- The central merge characterization: looking up a path in a merged
catalog gives the old catalog's answer exactly on the paths the new
catalog leaves untouched, and the new catalog's answer elsewhere. -/
theorem lookupPath_merge (p : List String) :
    ∀ (a b : Catalog),
      lookupPath p (merge a b) =
        if untouched p b then lookupPath p a else lookupPath p b := by
  induction p with
  | nil =>
    intro a b
    cases b with
    | leaf s =>
      rw [if_neg (by rw [untouched]; simp)]
      cases a <;> rfl
    | node n =>
      rw [if_neg (by rw [untouched]; simp)]
      cases a <;> rfl
  | cons k ks ih =>
    intro a b
    cases b with
    | leaf s =>
      rw [if_neg (by rw [untouched]; simp)]
      cases a <;> rfl
    | node n =>
      cases a with
      | leaf s =>
        rw [merge]
        cases ha : assoc k n with
        | some d =>
          rw [untouched_cons_some ks ha, lookupPath_cons_some ks ha]
          by_cases hu : untouched ks d = true
          · rw [if_pos hu, untouched_lookupPath ks d hu]
            rfl
          · rw [if_neg hu]
        | none =>
          rw [untouched_cons_none ks ha, if_pos rfl, lookupPath_cons_none ks ha]
          rfl
      | node m =>
        rw [merge]
        cases hn : assoc k n with
        | some d2 =>
          rw [untouched_cons_some ks hn]
          cases hm : assoc k m with
          | some d =>
            rw [lookupPath_cons_some ks (assoc_mergeEntries_some_some hn hm),
              ih d d2, lookupPath_cons_some ks hm, lookupPath_cons_some ks hn]
          | none =>
            rw [lookupPath_cons_some ks (assoc_mergeEntries_some_none hn hm),
              lookupPath_cons_none ks hm, lookupPath_cons_some ks hn]
            by_cases hu : untouched ks d2 = true
            · rw [if_pos hu, untouched_lookupPath ks d2 hu]
            · rw [if_neg hu]
        | none =>
          rw [untouched_cons_none ks hn, if_pos rfl]
          cases hm : assoc k m with
          | some d =>
            rw [lookupPath_cons_some ks (by rw [assoc_mergeEntries_none hn]; exact hm),
              lookupPath_cons_some ks hm]
          | none =>
            rw [lookupPath_cons_none ks (by rw [assoc_mergeEntries_none hn]; exact hm),
              lookupPath_cons_none ks hm]

/- ## Well-formedness lemmas -/

theorem wellFormedEntries_mem {m : List (String × Catalog)} {k : String} {d : Catalog}
    (hw : wellFormedEntries m = true) (hm : (k, d) ∈ m) : wellFormed d = true := by
  induction m with
  | nil => cases hm
  | cons kv rest ih =>
    rw [wellFormedEntries, Bool.and_eq_true] at hw
    cases hm with
    | head => exact hw.1
    | tail _ h => exact ih hw.2 h

theorem wellFormed_entries {m : List (String × Catalog)}
    (hw : wellFormed (Catalog.node m) = true) : wellFormedEntries m = true := by
  cases m with
  | nil => simp [wellFormed] at hw
  | cons kv rest =>
    rw [wellFormed, Bool.and_eq_true] at hw
    rw [wellFormedEntries, Bool.and_eq_true]
    exact hw

theorem wellFormed_assoc {m : List (String × Catalog)} {k : String} {d : Catalog}
    (hw : wellFormed (Catalog.node m) = true) (ha : assoc k m = some d) :
    wellFormed d = true :=
  wellFormedEntries_mem (wellFormed_entries hw) (assoc_mem ha)

theorem leafExists : ∀ (d : Catalog), wellFormed d = true →
    ∃ q v, lookupPath q d = some v
  | .leaf s, _ => ⟨[], s, rfl⟩
  | .node [], h => by simp [wellFormed] at h
  | .node ((k, d) :: rest), h => by
    rw [wellFormed, Bool.and_eq_true] at h
    obtain ⟨q, v, hq⟩ := leafExists d h.1
    refine ⟨k :: q, v, ?_⟩
    rw [lookupPath_cons_some q (show assoc k ((k, d) :: rest) = some d by
      rw [assoc, if_pos rfl])]
    exact hq

theorem touched_comparable (p : List String) :
    ∀ (d : Catalog), wellFormed d = true → untouched p d = false →
      ∃ q v, lookupPath q d = some v ∧ (q <+: p ∨ p <+: q) := by
  induction p with
  | nil =>
    intro d hw _
    obtain ⟨q, v, hq⟩ := leafExists d hw
    exact ⟨q, v, hq, Or.inr List.nil_prefix⟩
  | cons k ks ih =>
    intro d hw hu
    cases d with
    | leaf s => exact ⟨[], s, rfl, Or.inl List.nil_prefix⟩
    | node m =>
      cases ha : assoc k m with
      | some d2 =>
        rw [untouched_cons_some ks ha] at hu
        obtain ⟨q, v, hq, hcomp⟩ := ih d2 (wellFormed_assoc hw ha) hu
        refine ⟨k :: q, v, ?_, ?_⟩
        · rw [lookupPath_cons_some q ha]; exact hq
        · cases hcomp with
          | inl h => exact Or.inl (List.cons_prefix_cons.mpr ⟨rfl, h⟩)
          | inr h => exact Or.inr (List.cons_prefix_cons.mpr ⟨rfl, h⟩)
      | none =>
        rw [untouched_cons_none ks ha] at hu
        cases hu

theorem untouched_of_separated {p : List String} {d : Catalog}
    (hw : wellFormed d = true)
    (hsep : ∀ q v, lookupPath q d = some v → ¬ q <+: p ∧ ¬ p <+: q) :
    untouched p d = true := by
  by_cases h : untouched p d = true
  · exact h
  · obtain ⟨q, v, hq, hcomp⟩ :=
      touched_comparable p d hw (Bool.not_eq_true _ ▸ (by simpa using h))
    obtain ⟨h1, h2⟩ := hsep q v hq
    cases hcomp with
    | inl hc => exact absurd hc h1
    | inr hc => exact absurd hc h2

/- ## The Translation Catalog Manager state and operations -/

/-- Modelled from the spec: the process-wide state of the Translation
Catalog Manager — the Locale Registry (mapping from normalized locale
code to its Catalog) and the Active Locale. -/
structure I18nState where
  registry : List (String × Catalog)
  activeLocale : String

/-- Modelled from the spec: the built-in fallback locale. -/
def defaultLocale : String := "en"

/-- Modelled from the spec: set mutates the process-wide Active Locale
after normalizing case; it does not validate that a Catalog exists for
the code. -/
def set_locale (st : I18nState) (code : String) : I18nState :=
  { st with activeLocale := normalizeLocale code }

/-- Modelled from the spec: get returns the current Active Locale. -/
def get_locale (st : I18nState) : String :=
  st.activeLocale

/-- Modelled from the spec: the locale codes currently present in the
Registry, in insertion order. -/
def get_available_locales (st : I18nState) : List String :=
  st.registry.map Prod.fst

/-- Looks up a dotted path in the catalog registered for a locale. -/
def lookupIn (reg : List (String × Catalog)) (l : String) (p : List String) :
    Option String :=
  match assoc l reg with
  | some c => lookupPath p c
  | none => none

/-- Modelled from the spec: merging a parsed Catalog into the Registry
under a locale — new keys added, existing keys overwritten, nested
objects merged recursively rather than replaced wholesale. -/
def loadCatalog (st : I18nState) (doc : Catalog) (locale : String) : I18nState :=
  { st with
    registry :=
      updateAssoc st.registry (normalizeLocale locale)
        (merge ((assoc (normalizeLocale locale) st.registry).getD emptyCatalog) doc) }

/-- Modelled from the spec: the resolve primitive, conceptually the
underscore lookup function, called without a parameter mapping (so the
resolved template is returned as is). Steps: split the key on dots,
look the path up in the Catalog of the given locale (or the Active
Locale if omitted), fall back to the built-in default locale's Catalog,
and finally return the original dotted key unchanged. -/
def resolve (st : I18nState) (key : String) (loc : Option String) : String :=
  ((lookupIn st.registry (normalizeLocale (loc.getD st.activeLocale)) (splitKey key)).or
    (lookupIn st.registry defaultLocale (splitKey key))).getD key

/-- Modelled from the spec: an export error — raised only when no
default catalog exists at all. -/
structure LocaleNotFoundError where
  locale : String

/-- Modelled from the spec: produces the canonical nested structure
containing every known dotted key for the given locale, or the built-in
default locale's Catalog when the locale has no catalog yet; fails with
LocaleNotFoundError only if no default catalog exists at all. Does not
mutate the Registry. -/
def export_translation_template (st : I18nState) (locale : String) :
    Except LocaleNotFoundError Catalog :=
  match assoc (normalizeLocale locale) st.registry with
  | some c => .ok c
  | none =>
    match assoc defaultLocale st.registry with
    | some c => .ok c
    | none => .error ⟨locale⟩

/- ## Parsing of structured translation documents -/

/-- Modelled from the spec: a JSON-equivalent structured value as read
from a translation file. -/
inductive JsonVal where
  | str : String → JsonVal
  | num : Int → JsonVal
  | bool : Bool → JsonVal
  | null : JsonVal
  | arr : List JsonVal → JsonVal
  | obj : List (String × JsonVal) → JsonVal

/-- Modelled from the spec: the error raised on a malformed structured
document, identifying the failing key path. -/
structure TranslationParseError where
  path : List String

mutual

/-- Modelled from the spec: a translation document is an arbitrarily
nested mapping from string keys to either nested mappings or leaf
strings; anything else is malformed and fails with a
TranslationParseError naming the offending key path. -/
def parseCatalog (pref : List String) : JsonVal → Except TranslationParseError Catalog
  | .str s => .ok (.leaf s)
  | .obj kvs =>
    match parseEntries pref kvs with
    | .ok entries => .ok (.node entries)
    | .error e => .error e
  | _ => .error ⟨pref⟩

/-- Parses the entries of a mapping node left to right, extending the
key path for each entry. -/
def parseEntries (pref : List String) :
    List (String × JsonVal) → Except TranslationParseError (List (String × Catalog))
  | [] => .ok []
  | (k, j) :: rest =>
    match parseCatalog (pref ++ [k]) j with
    | .error e => .error e
    | .ok d =>
      match parseEntries pref rest with
      | .error e => .error e
      | .ok ds => .ok ((k, d) :: ds)

end

mutual

/-- The value stored at a key path of a document is neither a string
leaf nor a mapping: the document is malformed at that path. -/
def malformedAt : List String → JsonVal → Bool
  | [], .str _ => false
  | [], .obj _ => false
  | [], _ => true
  | k :: ks, .obj kvs => hasMalformedEntry k ks kvs
  | _ :: _, _ => false

/-- Some entry bound to the head key is malformed at the tail path. -/
def hasMalformedEntry (k : String) (ks : List String) :
    List (String × JsonVal) → Bool
  | [] => false
  | (k2, j) :: rest =>
    (decide (k2 = k) && malformedAt ks j) || hasMalformedEntry k ks rest

end

/-- Modelled from the spec: the outcome of reading a translation file
from disk — either the parsed JSON-equivalent value, or an ordinary
blocking I/O failure. -/
inductive FileReadResult where
  | ok : JsonVal → FileReadResult
  | readError : String → FileReadResult

/-- Modelled from the spec: the result of load_translation_file — the
updated state on success; parse and I/O errors propagate to the caller
unmodified, with no retry layer. -/
inductive LoadResult where
  | ok : I18nState → LoadResult
  | readError : String → LoadResult
  | parseFailure : TranslationParseError → LoadResult

/-- Modelled from the spec: parses the structured document read at a
path into a Catalog and merges it into the Registry under the locale.
A malformed document fails with TranslationParseError naming the
offending key path; I/O errors propagate unmodified; there is no retry. -/
def load_translation_file (st : I18nState) (file : FileReadResult)
    (locale : String) : LoadResult :=
  match file with
  | .readError e => .readError e
  | .ok j =>
    match parseCatalog [] j with
    | .error e => .parseFailure e
    | .ok doc => .ok (loadCatalog st doc locale)

/-- Modelled from the spec: infers a file's locale from its base name
(stem of a name ending in the json extension); other names are not
recognized. -/
def inferLocale (filename : String) : Option String :=
  match filename.data.reverse with
  | 'n' :: 'o' :: 's' :: 'j' :: '.' :: rest =>
    if rest = [] then none else some (String.mk rest.reverse)
  | _ => none

/-- Modelled from the spec: one step of directory loading — a file with
a recognized name is merged into the Registry under its inferred
locale; a file with an unrecognized name is skipped with a warning, not
a fatal error. -/
def processDirFile (st : I18nState) (file : String × Catalog) : I18nState :=
  match inferLocale file.1 with
  | some loc => loadCatalog st file.2 loc
  | none => st

/-- Modelled from the spec: enumerates the (already parsed) structured
documents of a directory and merges each into the Registry via the same
merge policy as load_translation_file. -/
def add_translation_directory (st : I18nState) (files : List (String × Catalog)) :
    I18nState :=
  files.foldl processDirFile st

/-- Modelled from the spec: report generation renders its strings
through the resolve primitive, using the per-report locale when one is
given; it reads the Registry and the Active Locale but mutates
neither. -/
def generateReport (st : I18nState) (keys : List String)
    (reportLocale : Option String) : List String × I18nState :=
  (keys.map (fun k => resolve st k reportLocale), st)

/- ## Parse error lemmas -/

theorem parseEntries_error {pref : List String} {e : TranslationParseError} :
    ∀ {kvs : List (String × JsonVal)}, parseEntries pref kvs = .error e →
      ∃ k j, (k, j) ∈ kvs ∧ parseCatalog (pref ++ [k]) j = .error e := by
  intro kvs
  induction kvs with
  | nil => intro h; simp [parseEntries] at h
  | cons kv rest ih =>
    obtain ⟨k, j⟩ := kv
    intro h
    rw [parseEntries] at h
    cases hp : parseCatalog (pref ++ [k]) j with
    | error e2 =>
      rw [hp] at h
      cases h
      exact ⟨k, j, List.mem_cons_self _ _, hp⟩
    | ok d =>
      rw [hp] at h
      cases hr : parseEntries pref rest with
      | error e2 =>
        rw [hr] at h
        cases h
        obtain ⟨k2, j2, hm, hp2⟩ := ih hr
        exact ⟨k2, j2, List.mem_cons_of_mem _ hm, hp2⟩
      | ok ds =>
        rw [hr] at h
        cases h

theorem hasMalformedEntry_of_mem {k : String} {ks : List String} {j : JsonVal} :
    ∀ {kvs : List (String × JsonVal)}, (k, j) ∈ kvs → malformedAt ks j = true →
      hasMalformedEntry k ks kvs = true := by
  intro kvs
  induction kvs with
  | nil => intro h; cases h
  | cons kv rest ih =>
    intro hm hj
    rw [hasMalformedEntry, Bool.or_eq_true]
    cases hm with
    | head =>
      exact Or.inl (by rw [Bool.and_eq_true]; exact ⟨by simp, hj⟩)
    | tail _ h => exact Or.inr (ih h hj)

mutual

theorem parseCatalog_error_malformed :
    ∀ (pref : List String) (e : TranslationParseError) (j : JsonVal),
      parseCatalog pref j = .error e →
      ∃ suf, e.path = pref ++ suf ∧ malformedAt suf j = true
  | pref, e, .str s => by intro h; simp [parseCatalog] at h
  | pref, e, .num i => by
    intro h
    rw [show parseCatalog pref (JsonVal.num i) = .error ⟨pref⟩ from rfl] at h
    cases h
    exact ⟨[], by simp, rfl⟩
  | pref, e, .bool b => by
    intro h
    rw [show parseCatalog pref (JsonVal.bool b) = .error ⟨pref⟩ from rfl] at h
    cases h
    exact ⟨[], by simp, rfl⟩
  | pref, e, .null => by
    intro h
    rw [show parseCatalog pref (JsonVal.null) = .error ⟨pref⟩ from rfl] at h
    cases h
    exact ⟨[], by simp, rfl⟩
  | pref, e, .arr l => by
    intro h
    rw [show parseCatalog pref (JsonVal.arr l) = .error ⟨pref⟩ from rfl] at h
    cases h
    exact ⟨[], by simp, rfl⟩
  | pref, e, .obj kvs => by
    intro h
    rw [parseCatalog] at h
    cases hp : parseEntries pref kvs with
    | ok entries => rw [hp] at h; cases h
    | error e2 =>
      rw [hp] at h
      cases h
      obtain ⟨k, suf, hpath, hmal⟩ := parseEntries_error_malformed pref e kvs hp
      refine ⟨k :: suf, ?_, ?_⟩
      · rw [hpath, List.append_assoc]; rfl
      · rw [malformedAt]; exact hmal

theorem parseEntries_error_malformed :
    ∀ (pref : List String) (e : TranslationParseError)
      (kvs : List (String × JsonVal)),
      parseEntries pref kvs = .error e →
      ∃ k suf, e.path = pref ++ [k] ++ suf ∧ hasMalformedEntry k suf kvs = true
  | pref, e, [] => by intro h; simp [parseEntries] at h
  | pref, e, (k2, j) :: rest => by
    intro h
    rw [parseEntries] at h
    cases hp : parseCatalog (pref ++ [k2]) j with
    | error e2 =>
      rw [hp] at h
      cases h
      obtain ⟨suf, hpath, hmal⟩ := parseCatalog_error_malformed (pref ++ [k2]) e j hp
      refine ⟨k2, suf, by rw [hpath], ?_⟩
      rw [hasMalformedEntry, Bool.or_eq_true]
      exact Or.inl (by rw [Bool.and_eq_true]; exact ⟨by simp, hmal⟩)
    | ok d =>
      rw [hp] at h
      cases hr : parseEntries pref rest with
      | error e2 =>
        rw [hr] at h
        cases h
        obtain ⟨k, suf, hpath, hmal⟩ := parseEntries_error_malformed pref e rest hr
        refine ⟨k, suf, hpath, ?_⟩
        rw [hasMalformedEntry, Bool.or_eq_true]
        exact Or.inr hmal
      | ok ds => rw [hr] at h; cases h

end

mutual

theorem malformed_parseCatalog_error :
    ∀ (pref suf : List String) (j : JsonVal), malformedAt suf j = true →
      ∃ e, parseCatalog pref j = .error e
  | pref, suf, .str s => by
    intro h; cases suf <;> simp [malformedAt] at h
  | pref, suf, .num i => fun _ => ⟨⟨pref⟩, rfl⟩
  | pref, suf, .bool b => fun _ => ⟨⟨pref⟩, rfl⟩
  | pref, suf, .null => fun _ => ⟨⟨pref⟩, rfl⟩
  | pref, suf, .arr l => fun _ => ⟨⟨pref⟩, rfl⟩
  | pref, suf, .obj kvs => by
    intro h
    cases suf with
    | nil => simp [malformedAt] at h
    | cons k ks =>
      rw [malformedAt] at h
      obtain ⟨e, he⟩ := hasMalformed_parseEntries_error pref k ks kvs h
      rw [parseCatalog, he]
      exact ⟨e, rfl⟩

theorem hasMalformed_parseEntries_error :
    ∀ (pref : List String) (k : String) (ks : List String)
      (kvs : List (String × JsonVal)), hasMalformedEntry k ks kvs = true →
      ∃ e, parseEntries pref kvs = .error e
  | pref, k, ks, [] => by intro h; simp [hasMalformedEntry] at h
  | pref, k, ks, (k2, j) :: rest => by
    intro h
    rw [parseEntries]
    cases hp : parseCatalog (pref ++ [k2]) j with
    | error e => exact ⟨e, rfl⟩
    | ok d =>
      rw [hasMalformedEntry, Bool.or_eq_true, Bool.and_eq_true] at h
      cases h with
      | inl h2 =>
        have hk : k2 = k := by simpa using h2.1
        obtain ⟨e, he⟩ := malformed_parseCatalog_error (pref ++ [k2]) ks j h2.2
        rw [he] at hp
        cases hp
      | inr h2 =>
        obtain ⟨e, he⟩ := hasMalformed_parseEntries_error pref k ks rest h2
        rw [he]
        exact ⟨e, rfl⟩

end

/- ## The cleanup helper of examples/i18n/advanced_usage_example.py -/

/-- The filesystem as seen by cleanup_files: existing file paths,
existing directory paths (paths are component lists), and the paths on
which the operating system raises an OSError when a removal is
attempted (environment-injected failures). -/
structure FileSystem where
  files : List (List String)
  dirs : List (List String)
  failing : List (List String)

/-- Python Path.exists: the path names an existing file or directory. -/
def pathExists (fs : FileSystem) (p : List String) : Bool :=
  fs.files.contains p || fs.dirs.contains p

/-- The immediate children of a directory path. -/
def dirEntries (fs : FileSystem) (p : List String) : List (List String) :=
  (fs.files ++ fs.dirs).filter (fun q => decide (q ≠ []) && decide (q.dropLast = p))

/-- Python Path.unlink: removes a file, raising on a missing file or an
injected failure. -/
def unlinkFs (fs : FileSystem) (p : List String) : Except String FileSystem :=
  if fs.failing.contains p then .error "OSError: unlink"
  else if fs.files.contains p then
    .ok { fs with files := fs.files.filter (fun q => q ≠ p) }
  else .error "FileNotFoundError"

/-- Python shutil.rmtree: removes a directory and everything beneath
it, raising on a missing directory or an injected failure. -/
def rmtreeFs (fs : FileSystem) (p : List String) : Except String FileSystem :=
  if fs.failing.contains p then .error "OSError: rmtree"
  else if fs.dirs.contains p then
    .ok { fs with
      files := fs.files.filter (fun q => !(p.isPrefixOf q)),
      dirs := fs.dirs.filter (fun q => !(p.isPrefixOf q)) }
  else .error "NotADirectoryError"

/-- Python Path.rmdir: removes an empty directory, raising when the
path is not an empty directory or on an injected failure. -/
def rmdirFs (fs : FileSystem) (p : List String) : Except String FileSystem :=
  if fs.failing.contains p then .error "OSError: rmdir"
  else if fs.dirs.contains p && (dirEntries fs p).isEmpty then
    .ok { fs with dirs := fs.dirs.filter (fun q => q ≠ p) }
  else .error "OSError: rmdir"

/-- The OUTPUT_DIR constant of the example script. -/
def outputDir : List String := ["output"]

/-- The body of one cleanup loop iteration, before exception handling:
if the path exists, unlink it when it is a file, remove the tree when
it is a directory (advanced_usage_example.py lines 995 to 1003). -/
def removeOne (fs : FileSystem) (p : List String) : Except String FileSystem :=
  if pathExists fs p then
    if fs.files.contains p then unlinkFs fs p
    else if fs.dirs.contains p then rmtreeFs fs p
    else .ok fs
  else .ok fs

/-- One loop iteration of cleanup_files including its handler: the
blanket per-path except clause turns any removal failure into a printed
warning (lines 1004 to 1005). -/
def cleanupOne (acc : FileSystem × List String) (p : List String) :
    Except String (FileSystem × List String) :=
  match removeOne acc.1 p with
  | .ok fs2 => .ok (fs2, acc.2)
  | .error e => .ok (acc.1, acc.2 ++ ["warn: could not remove: " ++ e])

/-- The final block of cleanup_files including its handler: remove the
output directory when it exists and has no entries, catching any
failure as a warning (lines 1007 to 1013). -/
def removeOutputDir (acc : FileSystem × List String) :
    Except String (FileSystem × List String) :=
  match
    (if pathExists acc.1 outputDir && (dirEntries acc.1 outputDir).isEmpty then
      rmdirFs acc.1 outputDir
    else .ok acc.1) with
  | .ok fs2 => .ok (fs2, acc.2)
  | .error e => .ok (acc.1, acc.2 ++ ["warn: could not remove output directory: " ++ e])

/-- The cleanup_files function of the example script: remove each
listed path under a per-path exception handler, then remove the output
directory if it is empty, under its own handler. An uncaught exception
would surface as an error value of the Except monad. -/
def cleanup_files (fs : FileSystem) (paths : List (List String)) :
    Except String (FileSystem × List String) := do
  let acc ← paths.foldlM cleanupOne (fs, [])
  removeOutputDir acc

theorem cleanupOne_ok (acc : FileSystem × List String) (p : List String) :
    ∃ r, cleanupOne acc p = .ok r := by
  rw [cleanupOne]
  cases removeOne acc.1 p with
  | ok fs2 => exact ⟨(fs2, acc.2), rfl⟩
  | error e => exact ⟨_, rfl⟩

theorem foldlM_cleanupOne_ok (paths : List (List String)) :
    ∀ (acc : FileSystem × List String),
      ∃ r, paths.foldlM cleanupOne acc = .ok r := by
  induction paths with
  | nil => intro acc; exact ⟨acc, rfl⟩
  | cons p rest ih =>
    intro acc
    obtain ⟨r, hr⟩ := cleanupOne_ok acc p
    obtain ⟨r2, hr2⟩ := ih r
    refine ⟨r2, ?_⟩
    rw [List.foldlM_cons, hr]
    exact hr2

theorem removeOutputDir_ok (acc : FileSystem × List String) :
    ∃ r, removeOutputDir acc = .ok r := by
  rw [removeOutputDir]
  cases (if pathExists acc.1 outputDir && (dirEntries acc.1 outputDir).isEmpty then
      rmdirFs acc.1 outputDir
    else .ok acc.1) with
  | ok fs2 => exact ⟨(fs2, acc.2), rfl⟩
  | error e => exact ⟨_, rfl⟩

/- ## Supporting lemmas about loading -/

theorem assoc_loadCatalog (st : I18nState) (doc : Catalog) (loc : String) :
    assoc (normalizeLocale loc) (loadCatalog st doc loc).registry =
      some (merge ((assoc (normalizeLocale loc) st.registry).getD emptyCatalog) doc) := by
  rw [loadCatalog]
  exact (assoc_updateAssoc _ _ _ _).trans (if_pos rfl)

theorem assoc_loadCatalog_ne (st : I18nState) (doc : Catalog) (loc : String)
    {l : String} (h : ¬ l = normalizeLocale loc) :
    assoc l (loadCatalog st doc loc).registry = assoc l st.registry := by
  rw [loadCatalog]
  exact (assoc_updateAssoc _ _ _ _).trans (if_neg h)

theorem untouched_false_of_lookup {p : List String} {d : Catalog} {v : String}
    (h : lookupPath p d = some v) : untouched p d = false := by
  by_cases hu : untouched p d = true
  · rw [untouched_lookupPath p d hu] at h
    cases h
  · simpa using hu

theorem lookupIn_absent {reg : List (String × Catalog)} {l : String} {p : List String}
    (h : ∀ loc cat, (loc, cat) ∈ reg → lookupPath p cat = none) :
    lookupIn reg l p = none := by
  rw [lookupIn]
  cases ha : assoc l reg with
  | some c => exact h _ c (assoc_mem ha)
  | none => rfl

/- ## Claim C1 -/

/-- C1: for every key absent from every loaded catalog and every locale,
resolve returns the original dotted key unchanged (and, being a total
function of the state, never raises). -/
theorem resolve_absent_key_unchanged (st : I18nState) (k : String) (L : Option String)
    (habs : ∀ loc cat, (loc, cat) ∈ st.registry → lookupPath (splitKey k) cat = none) :
    resolve st k L = k := by
  rw [resolve, lookupIn_absent habs, lookupIn_absent habs, Option.none_or]
  rfl

theorem resolve_absent_key_unchanged_witness :
    resolve ⟨[("en", Catalog.node [("report", Catalog.leaf "Overview")])], "en"⟩
      "nonexistent.key" (some "fr") = "nonexistent.key" :=
  resolve_absent_key_unchanged _ _ _ (by
    intro loc cat h
    rw [List.mem_singleton] at h
    injection h with h1 h2
    subst h2
    decide)

/- ## Claim C2 -/

/-- C2: for every key present in the default locale's catalog and absent
(fully or partially) from locale L's catalog, resolve at L equals resolve
at the default locale: lookup falls back to the built-in default
locale's catalog for the same dotted path. -/
theorem resolve_fallback_to_default (st : I18nState) (k : String) (L : String)
    (dcat : Catalog) (v : String)
    (hdef : assoc defaultLocale st.registry = some dcat)
    (hv : lookupPath (splitKey k) dcat = some v)
    (habsL : lookupIn st.registry (normalizeLocale L) (splitKey k) = none) :
    resolve st k (some L) = resolve st k (some defaultLocale) := by
  have hdefIn : lookupIn st.registry defaultLocale (splitKey k) = some v := by
    rw [lookupIn, hdef]
    exact hv
  have hR : resolve st k (some defaultLocale) = v := by
    rw [resolve]
    simp only [Option.getD_some]
    rw [show normalizeLocale defaultLocale = defaultLocale from by decide, hdefIn]
    rfl
  have hLft : resolve st k (some L) = v := by
    rw [resolve]
    simp only [Option.getD_some]
    rw [habsL, Option.none_or, hdefIn]
    rfl
  rw [hLft, hR]

theorem resolve_fallback_to_default_witness :
    resolve ⟨[("en", Catalog.node [("report", Catalog.node [("variables", Catalog.leaf "Variables")])]),
        ("fr", Catalog.node [("report", Catalog.node [("overview", Catalog.leaf "Apercu")])])], "en"⟩
      "report.variables" (some "fr")
      = resolve ⟨[("en", Catalog.node [("report", Catalog.node [("variables", Catalog.leaf "Variables")])]),
        ("fr", Catalog.node [("report", Catalog.node [("overview", Catalog.leaf "Apercu")])])], "en"⟩
      "report.variables" (some defaultLocale) :=
  resolve_fallback_to_default _ _ _ _ "Variables" rfl (by decide) (by decide)

/- ## Claim C5 -/

/-- C5: exporting the default locale's translation template and loading
the exported document back under a fresh locale code reproduces, key
for key, the default locale's catalog. -/
theorem export_roundtrip (st : I18nState) (dcat : Catalog) (L : String)
    (hdef : assoc defaultLocale st.registry = some dcat)
    (hfresh : assoc (normalizeLocale L) st.registry = none) :
    ∃ tmpl, export_translation_template st defaultLocale = .ok tmpl ∧
      assoc (normalizeLocale L) (loadCatalog st tmpl L).registry = some dcat ∧
      ∀ p, lookupIn (loadCatalog st tmpl L).registry (normalizeLocale L) p
        = lookupPath p dcat := by
  refine ⟨dcat, ?_, ?_, ?_⟩
  · rw [export_translation_template,
      show normalizeLocale defaultLocale = defaultLocale from by decide, hdef]
  · rw [assoc_loadCatalog, hfresh]
    rw [show (none : Option Catalog).getD emptyCatalog = emptyCatalog from rfl, merge_empty]
  · intro p
    rw [lookupIn, assoc_loadCatalog, hfresh]
    rw [show (none : Option Catalog).getD emptyCatalog = emptyCatalog from rfl, merge_empty]

theorem export_roundtrip_witness :
    ∃ tmpl, export_translation_template
        ⟨[("en", Catalog.node [("report", Catalog.leaf "Overview")])], "en"⟩
        defaultLocale = .ok tmpl ∧
      assoc (normalizeLocale "xx")
        (loadCatalog ⟨[("en", Catalog.node [("report", Catalog.leaf "Overview")])], "en"⟩
          tmpl "xx").registry
        = some (Catalog.node [("report", Catalog.leaf "Overview")]) ∧
      ∀ p, lookupIn
        (loadCatalog ⟨[("en", Catalog.node [("report", Catalog.leaf "Overview")])], "en"⟩
          tmpl "xx").registry (normalizeLocale "xx") p
        = lookupPath p (Catalog.node [("report", Catalog.leaf "Overview")]) :=
  export_roundtrip _ _ "xx" rfl rfl

/- ## Claim C6 -/

/-- C6: set_locale with code FR and with code fr are observably
equivalent — set_locale normalizes the case of its argument before
mutating the Active Locale — and it never touches the Registry, hence
does not validate that a catalog exists for the code. -/
theorem set_locale_case_normalization (st : I18nState) :
    set_locale st "FR" = set_locale st "fr" ∧
    (∀ code, (set_locale st code).registry = st.registry) ∧
    (∀ code, get_locale (set_locale st code) = normalizeLocale code) := by
  refine ⟨?_, fun code => rfl, fun code => rfl⟩
  rw [set_locale, set_locale, show normalizeLocale "FR" = normalizeLocale "fr" from by decide]

/- ## Claim C9 -/

/-- C9: generating a report does not mutate the process-wide Active
Locale: after set_locale, report generation (with or without an
explicit per-report locale parameter) leaves get_locale unchanged. -/
theorem report_generation_preserves_locale (st : I18nState) (c : String)
    (keys : List String) (rl : Option String) :
    get_locale (generateReport (set_locale st c) keys rl).2
      = get_locale (set_locale st c) ∧
    (generateReport st keys rl).2 = st :=
  ⟨rfl, rfl⟩

/- ## Claim C3 -/

/-- C3 (amended): loading files A then B into one locale yields a
catalog holding B's value for every leaf key B defines (hence for every
key defined in both), at any subtree depth, while leaf keys of A on
paths B leaves untouched — B defines neither the path, nor a value at a
prefix of it, nor a subtree below it — are preserved. The original
preservation condition, merely that the leaf key is defined only in A,
is refuted by load_order_counterexample. -/
theorem load_order_merge_semantics (st : I18nState) (A B : Catalog) (loc : String)
    (p : List String) (v : String) :
    (lookupPath p B = some v →
      lookupIn (loadCatalog (loadCatalog st A loc) B loc).registry
        (normalizeLocale loc) p = some v) ∧
    (lookupPath p A = some v → untouched p B = true →
      lookupIn (loadCatalog (loadCatalog st A loc) B loc).registry
        (normalizeLocale loc) p = some v) := by
  have hcat : lookupIn (loadCatalog (loadCatalog st A loc) B loc).registry
      (normalizeLocale loc) p
      = lookupPath p (merge (merge ((assoc (normalizeLocale loc) st.registry).getD
          emptyCatalog) A) B) := by
    rw [lookupIn, assoc_loadCatalog, assoc_loadCatalog]
    rfl
  constructor
  · intro hB
    rw [hcat, lookupPath_merge, if_neg (by rw [untouched_false_of_lookup hB]; simp)]
    exact hB
  · intro hA hu
    rw [hcat, lookupPath_merge, if_pos hu, lookupPath_merge,
      if_neg (by rw [untouched_false_of_lookup hA]; simp)]
    exact hA

theorem load_order_merge_semantics_witness :
    lookupIn (loadCatalog (loadCatalog ⟨[], "en"⟩
        (Catalog.node [("core", Catalog.node [("alerts",
          Catalog.node [("title", Catalog.leaf "T1"), ("extra", Catalog.leaf "E")])])])
        "fr"
      ) (Catalog.node [("core", Catalog.node [("alerts",
          Catalog.node [("title", Catalog.leaf "T2")])])]) "fr").registry
      (normalizeLocale "fr") ["core", "alerts", "title"] = some "T2" ∧
    lookupIn (loadCatalog (loadCatalog ⟨[], "en"⟩
        (Catalog.node [("core", Catalog.node [("alerts",
          Catalog.node [("title", Catalog.leaf "T1"), ("extra", Catalog.leaf "E")])])])
        "fr"
      ) (Catalog.node [("core", Catalog.node [("alerts",
          Catalog.node [("title", Catalog.leaf "T2")])])]) "fr").registry
      (normalizeLocale "fr") ["core", "alerts", "extra"] = some "E" :=
  ⟨(load_order_merge_semantics _ _ _ "fr" _ _).1 (by decide),
   (load_order_merge_semantics _ _ _ "fr" _ _).2 (by decide) (by decide)⟩

/- ## Lookup characterizations of small concrete catalogs -/

theorem lookupPath_leaf {p : List String} {v s : String}
    (h : lookupPath p (Catalog.leaf s) = some v) : p = [] ∧ v = s := by
  cases p with
  | nil => exact ⟨rfl, (Option.some.inj h).symm⟩
  | cons k ks => exact absurd h (by rw [lookupPath]; simp)

theorem lookupPath_single {k : String} {d : Catalog} {p : List String} {v : String}
    (h : lookupPath p (Catalog.node [(k, d)]) = some v) :
    ∃ ks, p = k :: ks ∧ lookupPath ks d = some v := by
  cases p with
  | nil => exact absurd h (by rw [lookupPath]; simp)
  | cons k2 ks =>
    by_cases hk : k = k2
    · rw [lookupPath_cons_some ks
        (show assoc k2 [(k, d)] = some d by rw [assoc, if_pos hk])] at h
      exact ⟨ks, by rw [hk], h⟩
    · rw [lookupPath_cons_none ks
        (show assoc k2 [(k, d)] = none by rw [assoc, if_neg hk]; rfl)] at h
      cases h

/-- The catalog of the first conflicting translation file: the single
dotted key a. -/
def docA : Catalog := Catalog.node [("a", Catalog.leaf "x")]

/-- The catalog of the second conflicting translation file: the single
dotted key a.b, whose first segment collides with the leaf key a of
docA. -/
def docB : Catalog := Catalog.node [("a", Catalog.node [("b", Catalog.leaf "y")])]

theorem docA_keys {p : List String} {v : String}
    (h : lookupPath p docA = some v) : p = ["a"] := by
  obtain ⟨ks, hp, h2⟩ := lookupPath_single h
  obtain ⟨hk, _⟩ := lookupPath_leaf h2
  rw [hp, hk]

theorem docB_keys {p : List String} {v : String}
    (h : lookupPath p docB = some v) : p = ["a", "b"] := by
  obtain ⟨ks, hp, h2⟩ := lookupPath_single h
  obtain ⟨ks2, hp2, h3⟩ := lookupPath_single h2
  obtain ⟨hk, _⟩ := lookupPath_leaf h3
  rw [hp, hp2, hk]

/-- C3 counterexample: the dotted key a.b is defined only in file A
(docB here, whose single key is a.b) and not in file B (docA, whose
single key is a), yet after loading A then B into one locale the key
a.b is gone — B's leaf at the prefix a overrides the whole subtree, so
leaf keys defined only in A are not always preserved. -/
theorem load_order_counterexample :
    lookupPath ["a", "b"] docB = some "y" ∧
    lookupPath ["a", "b"] docA = none ∧
    lookupIn (loadCatalog (loadCatalog ⟨[], "en"⟩ docB "fr") docA "fr").registry
      (normalizeLocale "fr") ["a", "b"] = none := by
  refine ⟨by decide, by decide, by decide⟩

/- ## Claim C4 -/

/-- C4 counterexample: docA and docB have disjoint dotted key sets
(their only keys are a and a.b respectively), yet the catalog obtained
by merging them does not contain the union of both key sets — the key a
of docA is gone, because the key a.b of docB turns the leaf at a into a
subtree. -/
theorem merge_union_counterexample :
    (∀ p q vp vq, lookupPath p docA = some vp → lookupPath q docB = some vq → p ≠ q) ∧
    lookupPath ["a"] docA = some "x" ∧
    lookupPath ["a"] (merge docA docB) = none := by
  refine ⟨?_, by decide, by decide⟩
  intro p q vp vq hp hq
  rw [docA_keys hp, docB_keys hq]
  simp

/-- C4 (amended): merging two translation files with disjoint key sets
into the same, previously empty, locale yields a catalog containing
exactly the union of both key sets, provided additionally that the
second file is well formed and that no dotted key of one file is a
prefix of (or equal to) a dotted key of the other. -/
theorem merge_disjoint_union (st : I18nState) (A B : Catalog) (loc : String)
    (hfresh : assoc (normalizeLocale loc) st.registry = none)
    (hwfB : wellFormed B = true)
    (hsep : ∀ p q vp vq, lookupPath p A = some vp → lookupPath q B = some vq →
      ¬ p <+: q ∧ ¬ q <+: p) :
    ∀ p, (lookupIn (loadCatalog (loadCatalog st A loc) B loc).registry
        (normalizeLocale loc) p).isSome
      = ((lookupPath p A).isSome || (lookupPath p B).isSome) := by
  intro p
  have hcat : lookupIn (loadCatalog (loadCatalog st A loc) B loc).registry
      (normalizeLocale loc) p = lookupPath p (merge A B) := by
    rw [lookupIn, assoc_loadCatalog, assoc_loadCatalog, hfresh]
    rw [show ((none : Option Catalog).getD emptyCatalog) = emptyCatalog from rfl,
      merge_empty]
    rfl
  rw [hcat, lookupPath_merge]
  by_cases hu : untouched p B = true
  · rw [if_pos hu, untouched_lookupPath p B hu]
    simp
  · rw [if_neg hu]
    cases hB : lookupPath p B with
    | some v => simp
    | none =>
      cases hA : lookupPath p A with
      | none => simp
      | some v =>
        have hut : untouched p B = true :=
          untouched_of_separated hwfB (fun q vq hq =>
            ⟨(hsep p q v vq hA hq).2, (hsep p q v vq hA hq).1⟩)
        exact absurd hut hu

theorem merge_disjoint_union_witness :
    (lookupIn (loadCatalog (loadCatalog ⟨[], "en"⟩
        (Catalog.node [("hello", Catalog.leaf "h")]) "de")
        (Catalog.node [("bye", Catalog.node [("now", Catalog.leaf "n")])]) "de").registry
      (normalizeLocale "de") ["hello"]).isSome
    = ((lookupPath ["hello"] (Catalog.node [("hello", Catalog.leaf "h")])).isSome
        || (lookupPath ["hello"]
          (Catalog.node [("bye", Catalog.node [("now", Catalog.leaf "n")])])).isSome) :=
  merge_disjoint_union ⟨[], "en"⟩ (Catalog.node [("hello", Catalog.leaf "h")])
    (Catalog.node [("bye", Catalog.node [("now", Catalog.leaf "n")])]) "de" rfl (by decide)
    (by
      intro p q vp vq hp hq
      obtain ⟨ks, hp1, hp2⟩ := lookupPath_single hp
      obtain ⟨hk, _⟩ := lookupPath_leaf hp2
      obtain ⟨qs, hq1, hq2⟩ := lookupPath_single hq
      obtain ⟨qs2, hq3, hq4⟩ := lookupPath_single hq2
      obtain ⟨hq5, _⟩ := lookupPath_leaf hq4
      rw [hp1, hk, hq1, hq3, hq5]
      constructor <;> decide)
    ["hello"]

/- ## Claim C7 -/

/-- C7: load_translation_file fails with a TranslationParseError
whenever the document is malformed with respect to the expected
structured format, and the error names the offending key path (the
named path really is malformed in the document); I/O errors propagate
to the caller unmodified, with no retry. -/
theorem load_translation_file_error_handling (st : I18nState) (L : String) :
    (∀ e, load_translation_file st (.readError e) L = .readError e) ∧
    (∀ j e, parseCatalog [] j = .error e →
      load_translation_file st (.ok j) L = .parseFailure e) ∧
    (∀ j e, parseCatalog [] j = .error e → malformedAt e.path j = true) ∧
    (∀ j p, malformedAt p j = true → ∃ e, parseCatalog [] j = .error e) := by
  refine ⟨fun e => rfl, ?_, ?_, ?_⟩
  · intro j e h
    rw [load_translation_file, h]
  · intro j e h
    obtain ⟨suf, hpath, hmal⟩ := parseCatalog_error_malformed [] e j h
    rw [hpath]
    simpa using hmal
  · intro j p h
    exact malformed_parseCatalog_error [] p j h

theorem load_translation_file_error_handling_witness :
    load_translation_file ⟨[], "en"⟩
        (.ok (JsonVal.obj [("core", JsonVal.num 3)])) "fr"
      = .parseFailure ⟨["core"]⟩ ∧
    malformedAt ["core"] (JsonVal.obj [("core", JsonVal.num 3)]) = true ∧
    load_translation_file ⟨[], "en"⟩ (.readError "disk gone") "fr"
      = .readError "disk gone" :=
  ⟨(load_translation_file_error_handling ⟨[], "en"⟩ "fr").2.1
      (JsonVal.obj [("core", JsonVal.num 3)]) ⟨["core"]⟩ rfl,
   by
    have h := (load_translation_file_error_handling ⟨[], "en"⟩ "fr").2.2.1
      (JsonVal.obj [("core", JsonVal.num 3)]) ⟨["core"]⟩ rfl
    simpa using h,
   (load_translation_file_error_handling ⟨[], "en"⟩ "fr").1 "disk gone"⟩

/- ## Claim C8 -/

theorem processDirFile_none {f : String × Catalog} (h : inferLocale f.1 = none)
    (st : I18nState) : processDirFile st f = st := by
  rw [processDirFile, h]

theorem processDirFile_some {f : String × Catalog} {l : String}
    (h : inferLocale f.1 = some l) (st : I18nState) :
    processDirFile st f = loadCatalog st f.2 l := by
  rw [processDirFile, h]

theorem addDir_cons (st : I18nState) (f : String × Catalog)
    (rest : List (String × Catalog)) :
    add_translation_directory st (f :: rest)
      = add_translation_directory (processDirFile st f) rest := rfl

/-- Two directory entries are locale-distinct when their file names do
not infer the same normalized locale code. -/
def distinctLocales (f g : String × Catalog) : Prop :=
  ∀ l1 l2, inferLocale f.1 = some l1 → inferLocale g.1 = some l2 →
    normalizeLocale l1 ≠ normalizeLocale l2

theorem distinctLocales_symm : Symmetric distinctLocales := by
  intro f g h l1 l2 h1 h2
  exact fun heq => (h l2 l1 h2 h1) heq.symm

theorem processDirFile_congr (f : String × Catalog) (st1 st2 : I18nState)
    (h : ∀ l, assoc l st1.registry = assoc l st2.registry) :
    ∀ l, assoc l (processDirFile st1 f).registry
      = assoc l (processDirFile st2 f).registry := by
  intro l
  cases hf : inferLocale f.1 with
  | none =>
    rw [processDirFile_none hf, processDirFile_none hf]
    exact h l
  | some loc =>
    rw [processDirFile_some hf, processDirFile_some hf]
    by_cases hl : l = normalizeLocale loc
    · rw [hl, assoc_loadCatalog, assoc_loadCatalog, h (normalizeLocale loc)]
    · rw [assoc_loadCatalog_ne _ _ _ hl, assoc_loadCatalog_ne _ _ _ hl]
      exact h l

theorem addDir_congr (files : List (String × Catalog)) :
    ∀ (st1 st2 : I18nState),
      (∀ l, assoc l st1.registry = assoc l st2.registry) →
      ∀ l, assoc l (add_translation_directory st1 files).registry
        = assoc l (add_translation_directory st2 files).registry := by
  induction files with
  | nil => intro st1 st2 h l; exact h l
  | cons f rest ih =>
    intro st1 st2 h l
    rw [addDir_cons, addDir_cons]
    exact ih _ _ (processDirFile_congr f st1 st2 h) l

theorem processDirFile_swap (f g : String × Catalog) (hfg : distinctLocales f g)
    (st : I18nState) (l : String) :
    assoc l (processDirFile (processDirFile st f) g).registry
      = assoc l (processDirFile (processDirFile st g) f).registry := by
  cases hf : inferLocale f.1 with
  | none => rw [processDirFile_none hf, processDirFile_none hf]
  | some l1 =>
    cases hg : inferLocale g.1 with
    | none => rw [processDirFile_none hg, processDirFile_none hg]
    | some l2 =>
      have hne := hfg l1 l2 hf hg
      rw [processDirFile_some hf, processDirFile_some hg,
        processDirFile_some hg, processDirFile_some hf]
      by_cases h1 : l = normalizeLocale l1
      · have hL : assoc (normalizeLocale l1)
            (loadCatalog (loadCatalog st f.2 l1) g.2 l2).registry
            = some (merge ((assoc (normalizeLocale l1) st.registry).getD
              emptyCatalog) f.2) := by
          rw [assoc_loadCatalog_ne _ _ _ hne, assoc_loadCatalog]
        have hR : assoc (normalizeLocale l1)
            (loadCatalog (loadCatalog st g.2 l2) f.2 l1).registry
            = some (merge ((assoc (normalizeLocale l1) st.registry).getD
              emptyCatalog) f.2) := by
          rw [assoc_loadCatalog, assoc_loadCatalog_ne _ _ _ hne]
        rw [h1, hL, hR]
      · by_cases h2 : l = normalizeLocale l2
        · have hne2 : ¬ normalizeLocale l2 = normalizeLocale l1 :=
            fun hh => hne hh.symm
          have hL : assoc (normalizeLocale l2)
              (loadCatalog (loadCatalog st f.2 l1) g.2 l2).registry
              = some (merge ((assoc (normalizeLocale l2) st.registry).getD
                emptyCatalog) g.2) := by
            rw [assoc_loadCatalog, assoc_loadCatalog_ne _ _ _ hne2]
          have hR : assoc (normalizeLocale l2)
              (loadCatalog (loadCatalog st g.2 l2) f.2 l1).registry
              = some (merge ((assoc (normalizeLocale l2) st.registry).getD
                emptyCatalog) g.2) := by
            rw [assoc_loadCatalog_ne _ _ _ hne2, assoc_loadCatalog]
          rw [h2, hL, hR]
        · have hL : assoc l
              (loadCatalog (loadCatalog st f.2 l1) g.2 l2).registry
              = assoc l st.registry := by
            rw [assoc_loadCatalog_ne _ _ _ h2, assoc_loadCatalog_ne _ _ _ h1]
          have hR : assoc l
              (loadCatalog (loadCatalog st g.2 l2) f.2 l1).registry
              = assoc l st.registry := by
            rw [assoc_loadCatalog_ne _ _ _ h1, assoc_loadCatalog_ne _ _ _ h2]
          rw [hL, hR]

theorem addDir_perm {files1 files2 : List (String × Catalog)}
    (hperm : files1.Perm files2) :
    files1.Pairwise distinctLocales →
    ∀ (st : I18nState) (l : String),
      assoc l (add_translation_directory st files1).registry
        = assoc l (add_translation_directory st files2).registry := by
  induction hperm with
  | nil => intro _ st l; rfl
  | cons x hp ih =>
    intro hpw st l
    rw [addDir_cons, addDir_cons]
    exact ih (List.Pairwise.of_cons hpw) (processDirFile st x) l
  | swap x y l0 =>
    intro hpw st l
    rw [addDir_cons, addDir_cons, addDir_cons, addDir_cons]
    have hxy : distinctLocales y x :=
      (List.pairwise_cons.mp hpw).1 x (List.mem_cons_self x l0)
    exact addDir_congr l0 _ _ (processDirFile_swap y x hxy st) l
  | trans h1 h2 ih1 ih2 =>
    intro hpw st l
    exact (ih1 hpw st l).trans (ih2 ((h1.pairwise_iff (fun hh => distinctLocales_symm hh)).mp hpw) st l)

/-- C8 counterexample: the directory holding FR.json with catalog docA
and fr.json with catalog docB — two files with disjoint dotted key sets
(a versus a.b) whose names both normalize to locale fr — produces
different final Registries for its two processing orders, refuting
order independence for merely non-overlapping key sets. -/
theorem add_directory_order_counterexample :
    (∀ p q vp vq, lookupPath p docA = some vp → lookupPath q docB = some vq → p ≠ q) ∧
    lookupIn (add_translation_directory ⟨[], "en"⟩
        [("FR.json", docA), ("fr.json", docB)]).registry "fr" ["a"] = none ∧
    lookupIn (add_translation_directory ⟨[], "en"⟩
        [("fr.json", docB), ("FR.json", docA)]).registry "fr" ["a"] = some "x" := by
  refine ⟨?_, by decide, by decide⟩
  intro p q vp vq hp hq
  rw [docA_keys hp, docB_keys hq]
  simp

/-- C8 (amended): for a directory whose file names infer pairwise
distinct normalized locales (the spec's one-document-per-locale
convention, which in particular holds for directories of files with
non-overlapping key sets and distinct locale stems), the final merged
Registry, read as a mapping from locale to catalog, is the same for
every processing order; each file's locale is inferred from its base
name (fr.json yields locale fr), and files with unrecognized names are
skipped rather than failing. -/
theorem add_directory_order_invariance (st : I18nState)
    (files1 files2 : List (String × Catalog))
    (hperm : files1.Perm files2)
    (hd : files1.Pairwise distinctLocales) :
    (∀ l, assoc l (add_translation_directory st files1).registry
      = assoc l (add_translation_directory st files2).registry) ∧
    inferLocale "fr.json" = some "fr" ∧
    (∀ (st2 : I18nState) (f : String × Catalog), inferLocale f.1 = none →
      processDirFile st2 f = st2) :=
  ⟨fun l => addDir_perm hperm hd st l, rfl,
   fun st2 f h => processDirFile_none h st2⟩

theorem add_directory_order_invariance_witness :
    assoc "fr" (add_translation_directory ⟨[], "en"⟩
        [("fr.json", docA), ("README", docB)]).registry
      = assoc "fr" (add_translation_directory ⟨[], "en"⟩
        [("README", docB), ("fr.json", docA)]).registry ∧
    inferLocale "fr.json" = some "fr" :=
  have h := add_directory_order_invariance ⟨[], "en"⟩
    [("fr.json", docA), ("README", docB)]
    [("README", docB), ("fr.json", docA)]
    (List.Perm.swap ("README", docB) ("fr.json", docA) [])
    (by
      refine List.Pairwise.cons ?_ (List.pairwise_singleton _ _)
      intro g hg
      rw [List.mem_singleton] at hg
      subst hg
      intro l1 l2 h1 h2
      rw [show inferLocale "README" = none from rfl] at h2
      cases h2)
  ⟨h.1 "fr", h.2.1⟩

/- ## Claim C10 -/

/-- C10: cleanup_files never propagates an exception to its caller —
every per-path removal failure is caught (and reported as a warning in
the returned log) — and the shared output directory is removed only
when it exists and is empty after the per-path loop. -/
theorem cleanup_files_never_raises (fs : FileSystem) (paths : List (List String)) :
    (∃ r, cleanup_files fs paths = Except.ok r) ∧
    (∀ fs1 log1 fs2 log2,
      paths.foldlM cleanupOne (fs, []) = Except.ok (fs1, log1) →
      cleanup_files fs paths = Except.ok (fs2, log2) →
      outputDir ∈ fs1.dirs → outputDir ∉ fs2.dirs →
      dirEntries fs1 outputDir = []) ∧
    (∀ (acc : FileSystem × List String) (p : List String) (e : String),
      removeOne acc.1 p = Except.error e →
      cleanupOne acc p
        = Except.ok (acc.1, acc.2 ++ ["warn: could not remove: " ++ e])) := by
  refine ⟨?_, ?_, ?_⟩
  · obtain ⟨acc, hacc⟩ := foldlM_cleanupOne_ok paths (fs, [])
    obtain ⟨r, hr⟩ := removeOutputDir_ok acc
    refine ⟨r, ?_⟩
    rw [cleanup_files, hacc]
    exact hr
  · intro fs1 log1 fs2 log2 hfold hclean hin hout
    rw [cleanup_files, hfold] at hclean
    have hclean2 : removeOutputDir (fs1, log1) = Except.ok (fs2, log2) := hclean
    by_cases hc : (pathExists fs1 outputDir && (dirEntries fs1 outputDir).isEmpty) = true
    · rw [Bool.and_eq_true] at hc
      exact List.isEmpty_iff.mp hc.2
    · rw [removeOutputDir, if_neg hc] at hclean2
      have h3 : fs1 = fs2 := congrArg Prod.fst (Except.ok.inj hclean2)
      exact absurd (h3 ▸ hin) hout
  · intro acc p e h
    rw [cleanupOne, h]

theorem cleanup_files_never_raises_witness :
    (∃ r, cleanup_files ⟨[], [["output"]], []⟩ [] = Except.ok r) ∧
    dirEntries (⟨[], [["output"]], []⟩ : FileSystem) outputDir = [] ∧
    cleanupOne (⟨[["f"]], [], [["f"]]⟩, []) ["f"]
      = Except.ok (⟨[["f"]], [], [["f"]]⟩,
          ["warn: could not remove: OSError: unlink"]) :=
  ⟨(cleanup_files_never_raises ⟨[], [["output"]], []⟩ []).1,
   (cleanup_files_never_raises ⟨[], [["output"]], []⟩ []).2.1
     ⟨[], [["output"]], []⟩ [] ⟨[], [], []⟩ [] rfl rfl (by decide) (by decide),
   (cleanup_files_never_raises ⟨[], [["output"]], []⟩ []).2.2
     (⟨[["f"]], [], [["f"]]⟩, []) ["f"] "OSError: unlink" rfl⟩
